import Mathlib

/-!
Shallow embedding of the offline-resilient task pipeline of the
`vibecode-bloggy` repository: the request cache and coalescer in front of
blog generation (`src/api/blog-generator.ts`), the retry engine
(`src/utils/retry.ts`), the offline task queue (`src/state/historyStore.ts`),
the bounded LRU cache, and the two sanitizing loggers.

JavaScript `Map` objects are embedded as association lists in insertion
order (a `Map` iterates keys in insertion order, which is what the LRU cache
relies on).  Machine time (`Date.now()`) is an explicit `Nat` millisecond
parameter.  The single-threaded event loop is embedded by making every
synchronous code segment one atomic transition on an explicit state.
-/

/-! ## Association-list model of the JavaScript `Map` -/

/-- `Map.get k`: the value of the first (in a real `Map`, only) entry for `k`. -/
def lookupAssoc {κ β : Type} [DecidableEq κ] : List (κ × β) → κ → Option β
  | [], _ => none
  | (k', v) :: rest, k => if k' = k then some v else lookupAssoc rest k

/-- `Map.delete k`: remove the entries for `k` (a real `Map` has at most one). -/
def mapDelete {κ β : Type} [DecidableEq κ] : List (κ × β) → κ → List (κ × β)
  | [], _ => []
  | (k', v) :: rest, k => if k' = k then mapDelete rest k else (k', v) :: mapDelete rest k

/-- `Map.has k`. -/
def mapHas {κ β : Type} [DecidableEq κ] : List (κ × β) → κ → Bool
  | [], _ => false
  | (k', _) :: rest, k => if k' = k then true else mapHas rest k

/-- `Map.set k v` on a map that may already hold `k`: replace in place
keeping the original iteration position, else append at the end of the
iteration order. -/
def mapSet {κ β : Type} [DecidableEq κ] : List (κ × β) → κ → β → List (κ × β)
  | [], k, v => [(k, v)]
  | (k', v') :: rest, k, v =>
    if k' = k then (k, v) :: rest else (k', v') :: mapSet rest k v

/-- Number of entries a map holds for one key (a well-formed `Map` has at most one). -/
def countKey {κ β : Type} [DecidableEq κ] : List (κ × β) → κ → Nat
  | [], _ => 0
  | (k', _) :: rest, k => (if k' = k then 1 else 0) + countKey rest k

theorem lookupAssoc_append_of_none {κ β : Type} [DecidableEq κ]
    (m : List (κ × β)) (k : κ) (v : β) (h : lookupAssoc m k = none) :
    lookupAssoc (m ++ [(k, v)]) k = some v := by
  induction m with
  | nil => simp [lookupAssoc]
  | cons p rest ih =>
    obtain ⟨k', v'⟩ := p
    by_cases hk : k' = k
    · simp [lookupAssoc, hk] at h
    · simp only [lookupAssoc, List.cons_append, hk, if_false] at h ⊢
      exact ih h

theorem lookupAssoc_mapDelete_self {κ β : Type} [DecidableEq κ]
    (m : List (κ × β)) (k : κ) : lookupAssoc (mapDelete m k) k = none := by
  induction m with
  | nil => rfl
  | cons p rest ih =>
    obtain ⟨k', v'⟩ := p
    by_cases hk : k' = k
    · simpa [mapDelete, hk] using ih
    · simpa [mapDelete, lookupAssoc, hk] using ih

theorem lookupAssoc_mapDelete_ne {κ β : Type} [DecidableEq κ]
    (m : List (κ × β)) (k j : κ) (h : j ≠ k) :
    lookupAssoc (mapDelete m k) j = lookupAssoc m j := by
  induction m with
  | nil => rfl
  | cons p rest ih =>
    obtain ⟨k', v'⟩ := p
    by_cases hk : k' = k
    · subst hk
      have hkj : ¬ k' = j := Ne.symm h
      simp [mapDelete, lookupAssoc, hkj, ih]
    · by_cases hj : k' = j
      · simp [mapDelete, lookupAssoc, hk, hj, h]
      · simp [mapDelete, lookupAssoc, hk, hj, ih]

theorem lookup_none_of_mapHas_false {κ β : Type} [DecidableEq κ]
    (m : List (κ × β)) (k : κ) (h : mapHas m k = false) : lookupAssoc m k = none := by
  induction m with
  | nil => rfl
  | cons p rest ih =>
    obtain ⟨k', v'⟩ := p
    by_cases hk : k' = k
    · simp [mapHas, hk] at h
    · simp only [mapHas, hk, if_false] at h
      simp only [lookupAssoc, hk, if_false]
      exact ih h

theorem lookupAssoc_mapSet_self {κ β : Type} [DecidableEq κ]
    (m : List (κ × β)) (k : κ) (v : β) : lookupAssoc (mapSet m k v) k = some v := by
  induction m with
  | nil => simp [mapSet, lookupAssoc]
  | cons p rest ih =>
    obtain ⟨k', v'⟩ := p
    by_cases hk : k' = k
    · simp [mapSet, lookupAssoc, hk]
    · simp [mapSet, lookupAssoc, hk, ih]

theorem countKey_mapDelete {κ β : Type} [DecidableEq κ]
    (m : List (κ × β)) (k : κ) : countKey (mapDelete m k) k = 0 := by
  induction m with
  | nil => rfl
  | cons p rest ih =>
    obtain ⟨k', v'⟩ := p
    by_cases hk : k' = k
    · simpa [mapDelete, hk] using ih
    · simpa [mapDelete, countKey, hk] using ih

theorem countKey_append_single {κ β : Type} [DecidableEq κ]
    (m : List (κ × β)) (k : κ) (v : β) :
    countKey (m ++ [(k, v)]) k = countKey m k + 1 := by
  induction m with
  | nil => simp [countKey]
  | cons p rest ih =>
    obtain ⟨k', v'⟩ := p
    simp [countKey, ih]
    omega

theorem countKey_eq_zero_of_lookup_none {κ β : Type} [DecidableEq κ]
    (m : List (κ × β)) (k : κ) (h : lookupAssoc m k = none) : countKey m k = 0 := by
  induction m with
  | nil => rfl
  | cons p rest ih =>
    obtain ⟨k', v'⟩ := p
    by_cases hk : k' = k
    · simp [lookupAssoc, hk] at h
    · simp only [lookupAssoc, hk, if_false] at h
      simpa [countKey, hk] using ih h

/-! ## JavaScript string helpers -/

/-- Does the pattern occur at the head of the text? -/
def listStartsWith {α : Type} [DecidableEq α] : List α → List α → Bool
  | [], _ => true
  | _ :: _, [] => false
  | p :: ps, t :: ts => if p = t then listStartsWith ps ts else false

/-- Does the pattern occur somewhere in the text? -/
def listContainsSeq {α : Type} [DecidableEq α] (pat : List α) : List α → Bool
  | [] => pat.isEmpty
  | t :: ts => listStartsWith pat (t :: ts) || listContainsSeq pat ts

/-- JavaScript `s.includes(pat)`: substring containment. -/
def strIncludes (s pat : String) : Bool :=
  listContainsSeq pat.toList s.toList

/-- JavaScript `s.toLowerCase()` (the keys and patterns involved are basic
latin, where `Char.toLower` agrees with it).  Written over the character
list so that it reduces by computation alone. -/
def jsToLower (s : String) : String :=
  String.mk (s.toList.map Char.toLower)

/-- JavaScript `s.trim()`. -/
def jsTrim (s : String) : String :=
  String.mk (((s.toList.dropWhile Char.isWhitespace).reverse.dropWhile
    Char.isWhitespace).reverse)

/-- The maximal non-whitespace runs of a character list; `acc` holds the
(reversed) run being read. -/
def splitNonWsRuns : List Char → List Char → List (List Char)
  | [], acc => if acc.isEmpty then [] else [acc.reverse]
  | c :: cs, acc =>
    if c.isWhitespace then
      if acc.isEmpty then splitNonWsRuns cs [] else acc.reverse :: splitNonWsRuns cs []
    else splitNonWsRuns cs (c :: acc)

/-- The non-empty tokens of JavaScript `s.split(/\s+/)`: the maximal
non-whitespace runs of `s`. -/
def nonWsRuns (s : String) : List String :=
  (splitNonWsRuns s.toList []).map String.mk

/-! ## Retry Engine (`src/utils/retry.ts`)

Embedding notes: errors are embedded as the record of fields the code
inspects (`message`, `isNetworkError`, `retryable`, `statusCode`); delays are
rationals since `calculateDelay` computes with JavaScript floating point on
small integral inputs (exactly representable, so ℚ is faithful); the
`onRetry` callback and the actual sleeping have no effect on control flow or
results and are not modelled.  The outcome of racing one invocation of the
operation against the timeout at a given attempt is an oracle
`RetryEnv.run`, and `networkService.isOnline()` at a given attempt is the
oracle `RetryEnv.online`. -/

/-- The fields of a JavaScript `Error` / `NetworkError` that the retry and
generation code reads. -/
structure JsError where
  message : String
  isNetworkError : Bool := false
  retryable : Bool := false
  statusCode : Option Nat := none
deriving DecidableEq

/-- `NetworkService.isRetryableError` (`src/utils/network.ts` lines 113-127). -/
def isRetryableError (statusCode : Option Nat) (originalError : Option JsError) : Bool :=
  if (match originalError with
      | some e =>
        strIncludes e.message "timeout" || strIncludes e.message "ECONNRESET" ||
          strIncludes e.message "ENOTFOUND"
      | none => false) then
    true
  else
    match statusCode with
    | some sc => if sc = 0 then false else decide (500 ≤ sc) || decide (sc = 408) || decide (sc = 429)
    | none => false

/-- `NetworkService.createNetworkError` (`src/utils/network.ts` lines 104-111). -/
def createNetworkError (message : String) (originalError : Option JsError)
    (statusCode : Option Nat) : JsError :=
  { message := message
    isNetworkError := true
    retryable := isRetryableError statusCode originalError
    statusCode := statusCode }

/-- The default `retryCondition` of `DEFAULT_OPTIONS` (`retry.ts` lines 26-38). -/
def defaultRetryCondition (e : JsError) : Bool :=
  if e.isNetworkError then e.retryable
  else
    let m := jsToLower e.message
    strIncludes m "network" || strIncludes m "timeout" ||
      strIncludes m "connection" || strIncludes m "fetch"

/-- `RetryOptions` with the defaults of `DEFAULT_OPTIONS` (`retry.ts` lines 3-41). -/
structure RetryOptions where
  maxAttempts : Nat := 3
  baseDelay : ℚ := 1000
  maxDelay : ℚ := 30000
  backoffFactor : ℚ := 2
  jitter : Bool := true
  retryCondition : JsError → Bool := defaultRetryCondition
  timeout : ℚ := 30000

/-- `RetryService.calculateDelay` (`retry.ts` lines 44-56).  `rand` is the
value drawn from `Math.random()`, which lies in `[0, 1)`. -/
def calculateDelay (attempt : Nat) (options : RetryOptions) (rand : ℚ) : ℚ :=
  let exponentialDelay := options.baseDelay * options.backoffFactor ^ (attempt - 1)
  let cappedDelay := min exponentialDelay options.maxDelay
  if options.jitter then
    let jitterRange := cappedDelay * (1 / 10)
    let jitterTerm := (rand - 1 / 2) * 2 * jitterRange
    max 0 (cappedDelay + jitterTerm)
  else
    cappedDelay

/-- Oracles for the effectful parts of one `withRetry` call: connectivity as
seen at attempt `n`, and the settled outcome of racing `operation()` against
the timeout at attempt `n`. -/
structure RetryEnv (α : Type) where
  online : Nat → Bool
  run : Nat → Except JsError α

/-- Placeholder for the `undefined` that `throw lastError` raises when the
loop body never ran (`maxAttempts = 0`); unreachable for `maxAttempts ≥ 1`. -/
def undefinedError : JsError := { message := "undefined" }

/-- The `for (attempt = 1; attempt <= maxAttempts; ...)` loop of
`RetryService.withRetry` (`retry.ts` lines 70-115).  Returns the settled
value together with the attempt count on success (the `{data, attempts}`
result object), or the propagated error; the second component counts how
many times the operation was actually invoked (it is not invoked when the
offline check throws first).  The fuel argument starts at `maxAttempts` and
mirrors the loop bound. -/
def withRetryGo {α : Type} (opts : RetryOptions) (env : RetryEnv α) :
    Nat → Nat → Nat → Except JsError (α × Nat) × Nat
  | _, 0, invoked => (Except.error undefinedError, invoked)
  | attempt, fuel + 1, invoked =>
    let step : Except JsError α × Nat :=
      if env.online attempt then (env.run attempt, invoked + 1)
      else (Except.error (createNetworkError "No internet connection available" none none),
        invoked)
    match step with
    | (Except.ok a, invoked') => (Except.ok (a, attempt), invoked')
    | (Except.error e, invoked') =>
      if attempt = opts.maxAttempts then (Except.error e, invoked')
      else if ¬ opts.retryCondition e then (Except.error e, invoked')
      else withRetryGo opts env (attempt + 1) fuel invoked'

/-- `RetryService.withRetry` (`retry.ts` lines 62-116). -/
def withRetry {α : Type} (opts : RetryOptions) (env : RetryEnv α) :
    Except JsError (α × Nat) × Nat :=
  withRetryGo opts env 1 opts.maxAttempts 0

/-! ## Generation façade: blog generator (`src/api/blog-generator.ts`)

Embedding notes: the module-level `blogCacheMem` / `inFlightBlogs` maps and
the ghost counters live in an explicit `BlogServiceState`.  The whole body
of `generateEnhancedSEOBlog` from entry up to and including
`inFlightBlogs.set(key, task)` (lines 80-277) contains no `await`, so on the
single-threaded event loop it is one atomic step, `generateEnhancedSEOBlogStart`;
the continuation that runs when the shared task settles (the cache write of
line 280 and the `finally` deletion of line 283) is the atomic step
`settleFlight`.  Callers that receive the same pending promise (route
`joined`/`started` with the same flight id) resolve with that one promise's
settled outcome, which `resolveRoute` makes explicit. -/

/-- A curly brace character (written by code point to keep it out of string
literals). -/
def lbrace : Char := Char.ofNat 123

/-- A closing curly brace character. -/
def rbrace : Char := Char.ofNat 125

/-- JavaScript `content.split(/\s+/).filter((w) => w.length > 0).length`:
the number of maximal non-whitespace runs (lines 264-266 and line 288). -/
def countWords (s : String) : Nat :=
  (nonWsRuns s).length

/-- JavaScript `content.split(/\s+/)` (without a filter, line 258): the
non-empty tokens, plus one leading empty string when the text starts with
whitespace and one trailing empty string when it ends with whitespace; on
the empty string the result is `[""]`. -/
def jsSplitWs (s : String) : List String :=
  match s.toList with
  | [] => [""]
  | c :: _ =>
    let withLead := if c.isWhitespace then "" :: nonWsRuns s else nonWsRuns s
    if ((s.toList.getLast?).getD c).isWhitespace then withLead ++ [""] else withLead

/-- JavaScript `Math.ceil(a / b)` for natural `a`, positive natural `b`. -/
def jsCeilDiv (a b : Nat) : Nat := (a + b - 1) / b

structure Heading where
  level : Nat
  text : String
  anchor : String
deriving DecidableEq

structure FAQItem where
  question : String
  answer : String
deriving DecidableEq

/-- The `GeneratedBlog` interface (`blog-generator.ts` lines 18-36). -/
structure GeneratedBlog where
  title : String
  metaDescription : String
  content : String
  keywords : List String
  headings : List Heading
  faqSection : Option (List FAQItem) := none
  schemaMarkup : Option String := none
  seoScore : Nat
  readingTime : Nat
  wordCount : Nat
deriving DecidableEq

/-- The untyped object produced by `JSON.parse` before the unchecked
`as GeneratedBlog` cast: every field may be absent. -/
structure RawBlog where
  title : Option String := none
  metaDescription : Option String := none
  content : Option String := none
  keywords : List String := []
  headings : List Heading := []
  faqSection : Option (List FAQItem) := none
  schemaMarkup : Option String := none
  seoScore : Option Nat := none
  readingTime : Option Nat := none
  wordCount : Option Nat := none
deriving DecidableEq

/-- The match of the regex `\x7b[\s\S]*\x7d` (line 244): from the first
opening brace to the last closing brace, provided the latter comes after
the former; otherwise `null`. -/
def extractJsonBlock (s : String) : Option String :=
  let cs := s.toList
  match cs.findIdx? (fun c => c == lbrace) with
  | none => none
  | some i =>
    match cs.reverse.findIdx? (fun c => c == rbrace) with
    | none => none
    | some r =>
      let j := cs.length - 1 - r
      if i < j then some (String.mk ((cs.drop i).take (j - i + 1))) else none

/-- Lines 256-269: fill `readingTime` and `wordCount` when the parsed object
lacks them (JavaScript treats both `undefined` and `0` as missing), then use
the parsed object as the result.  Fields that the code never validates are
taken from the parsed object, with the zero value standing for the
`undefined` a malformed but accepted payload would leave behind. -/
def finalizeBlog (raw : RawBlog) (t c : String) : GeneratedBlog :=
  let readingTime :=
    if raw.readingTime.getD 0 = 0 then jsCeilDiv (jsSplitWs c).length 200
    else raw.readingTime.getD 0
  let wordCount :=
    if raw.wordCount.getD 0 = 0 then countWords c
    else raw.wordCount.getD 0
  { title := t
    metaDescription := raw.metaDescription.getD ""
    content := c
    keywords := raw.keywords
    headings := raw.headings
    faqSection := raw.faqSection
    schemaMarkup := raw.schemaMarkup
    seoScore := raw.seoScore.getD 0
    readingTime := readingTime
    wordCount := wordCount }

/-- The `try` block of lines 242-269: extract the JSON block, parse it
(`jsonParse` is the platform `JSON.parse` followed by the unchecked cast;
`none` models a thrown parse error), validate that `title` and `content`
are present and non-empty, and fill the derived fields.  `none` means the
`catch` branch runs. -/
def tryParseBlog (jsonParse : String → Option RawBlog) (content : String) :
    Option GeneratedBlog :=
  match extractJsonBlock content with
  | none => none
  | some block =>
    match jsonParse block with
    | none => none
    | some raw =>
      match raw.title, raw.content with
      | some t, some c => if t = "" ∨ c = "" then none else some (finalizeBlog raw t c)
      | some _, none => none
      | none, _ => none

/-- `createFallbackBlogData` (`blog-generator.ts` lines 287-317). -/
def createFallbackBlogData (topic content : String) : GeneratedBlog :=
  let wordCount := countWords content
  { title := "The Complete Guide to " ++ topic
    metaDescription := "Discover everything you need to know about " ++ topic ++
      ". Expert tips, strategies, and actionable insights to help you succeed."
    content := content
    keywords := [jsToLower topic, jsToLower topic ++ " guide", "how to " ++ jsToLower topic]
    headings := [{ level := 1, text := "The Complete Guide to " ++ topic,
                   anchor := "complete-guide" }]
    faqSection := some [{ question := "What is " ++ topic ++ "?",
                          answer := topic ++ " is a comprehensive approach that involves multiple strategies and techniques to achieve optimal results." }]
    seoScore := 75
    readingTime := jsCeilDiv wordCount 200
    wordCount := wordCount }

/-- Lines 242-274: parse the response, recovering a parse failure locally
with the synthesized fallback. -/
def handleBlogContent (jsonParse : String → Option RawBlog) (topic content : String) :
    GeneratedBlog :=
  match tryParseBlog jsonParse content with
  | some blogData => blogData
  | none => createFallbackBlogData topic content

/-- The body of the in-flight task (lines 217-275).  `upstream` is the
settled outcome of the retried chat-completion call; `some content` models
`response.choices[0]?.message?.content` being present (the empty string is
falsy in JavaScript and rejected the same way as a missing field). -/
def blogTaskOutcome (jsonParse : String → Option RawBlog) (topic : String)
    (upstream : Except JsError (Option String)) : Except JsError GeneratedBlog :=
  match upstream with
  | Except.error e => Except.error e
  | Except.ok none => Except.error { message := "No content generated" }
  | Except.ok (some content) =>
    if content = "" then Except.error { message := "No content generated" }
    else Except.ok (handleBlogContent jsonParse topic content)

/-- `BlogGenerationOptions` (`blog-generator.ts` lines 6-16); `none` is an
omitted (undefined) field.  `researchData` only feeds the prompt text and is
irrelevant to the cache key and the claims, so it is not carried. -/
structure BlogGenerationOptions where
  topic : String
  contentType : Option String := none
  targetAudience : Option String := none
  tone : Option String := none
  includeImages : Option Bool := none
  includeFAQ : Option Bool := none
  includeSchema : Option Bool := none
  wordCount : Option Nat := none
deriving DecidableEq

/-- The normalized request key.  The source serializes this record with
`JSON.stringify` over a fixed field order (lines 65-74); since that
serialization is injective on the record, key equality in the maps is
exactly equality of this record, which we use directly. -/
structure BlogKey where
  t : String
  ct : String
  ta : String
  tn : String
  faq : Bool
  schema : Bool
  img : Bool
  wc : Nat
deriving DecidableEq

/-- `blogKey` (`blog-generator.ts` lines 54-75), defaults applied exactly as
the destructuring defaults do. -/
def blogKey (opts : BlogGenerationOptions) : BlogKey :=
  { t := jsToLower (jsTrim opts.topic)
    ct := opts.contentType.getD "guide"
    ta := opts.targetAudience.getD "general"
    tn := opts.tone.getD "conversational"
    faq := opts.includeFAQ.getD true
    schema := opts.includeSchema.getD true
    img := opts.includeImages.getD false
    wc := opts.wordCount.getD 2500 }

/-- A `blogCacheMem` entry: `\x7b data, expiresAt \x7d` (line 51). -/
structure CacheEntry where
  data : GeneratedBlog
  expiresAt : Nat
deriving DecidableEq

/-- `BLOG_TTL_MS = 24 * 60 * 60 * 1000` (line 50). -/
def BLOG_TTL_MS : Nat := 24 * 60 * 60 * 1000

/-- The module-level state of `blog-generator.ts` (lines 51-52), plus two
ghost fields: a supply of fresh promise identities and a counter of upstream
generation tasks started (for the coalescing claim). -/
structure BlogServiceState where
  blogCacheMem : List (BlogKey × CacheEntry) := []
  inFlightBlogs : List (BlogKey × Nat) := []
  nextFlightId : Nat := 0
  upstreamCalls : Nat := 0
deriving DecidableEq

/-- How one call returns from the synchronous prefix of
`generateEnhancedSEOBlog`: a live cached value, the pending promise of an
earlier caller, or a freshly started upstream task. -/
inductive CallRoute where
  | cached (data : GeneratedBlog)
  | joined (flight : Nat)
  | started (flight : Nat)
deriving DecidableEq

/-- Lines 84-87: `blogCacheMem.get(key)` followed by the strict
`cached.expiresAt > Date.now()` liveness test. -/
def cacheLookupLive (st : BlogServiceState) (key : BlogKey) (now : Nat) :
    Option GeneratedBlog :=
  match lookupAssoc st.blogCacheMem key with
  | some cached => if cached.expiresAt > now then some cached.data else none
  | none => none

/-- The synchronous prefix of `generateEnhancedSEOBlog` (lines 80-277): cache
check, in-flight coalescing check, and otherwise registration of a fresh
upstream task under the key.  Atomic on the event loop because this span
contains no `await`. -/
def generateEnhancedSEOBlogStart (options : BlogGenerationOptions) (now : Nat)
    (st : BlogServiceState) : BlogServiceState × CallRoute :=
  let key := blogKey options
  match cacheLookupLive st key now with
  | some data => (st, CallRoute.cached data)
  | none =>
    match lookupAssoc st.inFlightBlogs key with
    | some flight => (st, CallRoute.joined flight)
    | none =>
      let fid := st.nextFlightId
      ({ st with
          inFlightBlogs := st.inFlightBlogs ++ [(key, fid)]
          nextFlightId := fid + 1
          upstreamCalls := st.upstreamCalls + 1 },
        CallRoute.started fid)

/-- The continuation of lines 278-284 once the shared task settles at time
`now`: on success store the result in the cache with the 24-hour TTL, and in
both cases (`finally`) remove the in-flight entry. -/
def settleFlight (options : BlogGenerationOptions)
    (outcome : Except JsError GeneratedBlog) (now : Nat) (st : BlogServiceState) :
    BlogServiceState × Except JsError GeneratedBlog :=
  let key := blogKey options
  match outcome with
  | Except.ok result =>
    ({ st with
        blogCacheMem := mapSet st.blogCacheMem key { data := result, expiresAt := now + BLOG_TTL_MS }
        inFlightBlogs := mapDelete st.inFlightBlogs key },
      Except.ok result)
  | Except.error e =>
    ({ st with inFlightBlogs := mapDelete st.inFlightBlogs key }, Except.error e)

/-- `n` concurrent callers with the same options: each synchronous prefix
runs as one atomic event-loop step, in some order; the list collects each
route of each caller. -/
def startMany (options : BlogGenerationOptions) (now : Nat) :
    BlogServiceState → Nat → BlogServiceState × List CallRoute
  | st, 0 => (st, [])
  | st, n + 1 =>
    let p := generateEnhancedSEOBlogStart options now st
    let q := startMany options now p.1 n
    (q.1, p.2 :: q.2)

/-- The value a caller eventually receives, given the settled outcome of the
one shared flight: a cache hit returns synchronously, and both the starter
and the joiners await the same promise. -/
def resolveRoute (outcome : Except JsError GeneratedBlog) :
    CallRoute → Except JsError GeneratedBlog
  | CallRoute.cached data => Except.ok data
  | CallRoute.joined _ => outcome
  | CallRoute.started _ => outcome

/-! ## Offline Task Queue (`src/state/historyStore.ts`)

Embedding notes: the zustand store state is reduced to the fields
`processQueue` touches (`blogs`, `queuedTasks`); `addBlog` also merges tags
and recomputes metrics, which the queue claims never read.  The combined
effect of the research call plus `generateEnhancedSEOBlog` on the head task
(lines 135-148) is the oracle `exec`; a task is executed at most once per
drain, so the oracle needs no attempt index.  The `id`/`createdAt` fields
built from `Date.now()` and `Math.random()` are outside the model.
`networkService.isOnline()` is the oracle `online`, indexed by how many
times the drain has polled it (the outer guard polls once, then once per
loop iteration). -/

structure TaskOptions where
  wordCount : Option Nat := none
  includeFAQ : Option Bool := none
  includeSchema : Option Bool := none
  tone : Option String := none
  contentType : Option String := none
deriving DecidableEq

/-- `QueuedTask` (`historyStore.ts` lines 82-94). -/
structure QueuedTask where
  id : String
  topic : String
  withResearch : Bool
  options : Option TaskOptions := none
  attempts : Nat
deriving DecidableEq

/-- The fields of a `BlogPost` that `processQueue` writes (lines 150-166). -/
structure BlogPost where
  title : String
  content : String
  topic : String
  metaDescription : String
  keywords : List String
  status : String := "draft"
  seoScore : Nat
  wordCount : Nat
  readingTime : Nat
  tags : List String := []
  isFavorite : Bool := false
  version : Nat := 1
deriving DecidableEq

/-- The store state that `processQueue` reads and writes. -/
structure HistoryState where
  blogs : List BlogPost
  queuedTasks : List QueuedTask
deriving DecidableEq

/-- `enqueueTask` (lines 117-126): fresh id, `attempts = 0`, appended at the
end of the queue. -/
def enqueueTask (id : String) (topic : String) (withResearch : Bool)
    (options : Option TaskOptions) (st : HistoryState) : HistoryState :=
  { st with
      queuedTasks := st.queuedTasks ++
        [{ id := id, topic := topic, withResearch := withResearch,
           options := options, attempts := 0 }] }

/-- The `BlogPost` built from a drained task (lines 150-166). -/
def mkBlogPost (task : QueuedTask) (blogData : GeneratedBlog) : BlogPost :=
  { title := blogData.title
    content := blogData.content
    topic := task.topic
    metaDescription := blogData.metaDescription
    keywords := blogData.keywords
    status := "draft"
    seoScore := blogData.seoScore
    wordCount := blogData.wordCount
    readingTime := blogData.readingTime
    tags := []
    isFavorite := false
    version := 1 }

/-- The `while` loop of `processQueue` (lines 132-187).  Checks connectivity
before each iteration; on success prepends the built post to `blogs`
(`addBlog`) and removes the head; on failure increments the `attempts`
field of the head, drops the head and continues if the incremented count reached 3,
and otherwise stops the whole drain.  The first returned component is the
ghost trace of the tasks whose execution was actually attempted, in order. -/
def processQueueLoop (online : Nat → Bool) (exec : QueuedTask → Except Unit GeneratedBlog) :
    Nat → List BlogPost → List QueuedTask →
    List QueuedTask × List BlogPost × List QueuedTask
  | _, blogs, [] => ([], blogs, [])
  | i, blogs, task :: rest =>
    if online i then
      match exec task with
      | Except.ok blogData =>
        let r := processQueueLoop online exec (i + 1) (mkBlogPost task blogData :: blogs) rest
        (task :: r.1, r.2)
      | Except.error _ =>
        let incremented := { task with attempts := task.attempts + 1 }
        if 3 ≤ incremented.attempts then
          let r := processQueueLoop online exec (i + 1) blogs rest
          (task :: r.1, r.2)
        else
          ([task], blogs, incremented :: rest)
    else
      ([], blogs, task :: rest)

/-- `processQueue` (lines 128-188): a no-op when offline or the queue is
empty, otherwise the drain loop.  Poll 0 is the outer guard; poll `i ≥ 1`
guards loop iteration `i`. -/
def processQueue (online : Nat → Bool) (exec : QueuedTask → Except Unit GeneratedBlog)
    (st : HistoryState) : List QueuedTask × HistoryState :=
  if ¬ online 0 ∨ st.queuedTasks = [] then ([], st)
  else
    ((processQueueLoop online exec 1 st.blogs st.queuedTasks).1,
      { blogs := (processQueueLoop online exec 1 st.blogs st.queuedTasks).2.1,
        queuedTasks := (processQueueLoop online exec 1 st.blogs st.queuedTasks).2.2 })

/-! ## Bounded LRU cache (the `LRUCache` module, `src/unnamed/part_015`) -/

/-- `LRUCache` backed by an insertion-ordered map (lines 1-3). -/
structure LRUCache (K V : Type) where
  maxSize : Nat
  map : List (K × V) := []

/-- `LRUCache.get` (lines 5-12): a hit deletes and reinserts the entry,
promoting it to most-recently-used (the end of the iteration order). -/
def LRUCache.get {K V : Type} [DecidableEq K] (c : LRUCache K V) (k : K) :
    Option V × LRUCache K V :=
  match lookupAssoc c.map k with
  | some v => (some v, { c with map := mapDelete c.map k ++ [(k, v)] })
  | none => (none, c)

/-- `LRUCache.set` (lines 14-24): an existing key is deleted first (recency
refresh, no growth); otherwise at capacity the first key in iteration order
(the least recently used) is evicted; the new entry is appended at the end. -/
def LRUCache.set {K V : Type} [DecidableEq K] (c : LRUCache K V) (k : K) (v : V) :
    LRUCache K V :=
  let m :=
    if mapHas c.map k then mapDelete c.map k
    else if c.maxSize ≤ c.map.length then
      match c.map with
      | [] => c.map
      | (k0, _) :: _ => mapDelete c.map k0
    else c.map
  { c with map := m ++ [(k, v)] }

/-- Insert a list of bindings left to right. -/
def LRUCache.setMany {K V : Type} [DecidableEq K] :
    LRUCache K V → List (K × V) → LRUCache K V
  | c, [] => c
  | c, (k, v) :: rest => LRUCache.setMany (c.set k v) rest

/-! ## Sanitizing loggers (`src/unnamed/part_012`: the app logger;
`src/unnamed/part_013`: the server logger)

Embedding notes: dynamic JavaScript values are the inductive `JsValue`
(primitives, `Error` objects reduced to the `name`/`message` fields the
sanitizers read, arrays, and string-keyed objects in key order).  The app
`Error` branch of the app sanitizer calls `sanitize(value.message)` on a string,
which is exactly its string branch, written here as `redactString`. -/

mutual
inductive JsValue where
  | str (s : String)
  | num (n : Int)
  | boolVal (b : Bool)
  | nullVal
  | errVal (name message : String)
  | arr (xs : JsArr)
  | obj (fs : JsObj)
inductive JsArr where
  | nil
  | cons (head : JsValue) (tail : JsArr)
inductive JsObj where
  | nil
  | cons (key : String) (val : JsValue) (tail : JsObj)
end

/-- The five log levels of both loggers, with their numeric ranks. -/
inductive LogLevel where
  | debug
  | info
  | warn
  | error

/-- `LEVELS` (both logger modules). -/
def levelNum : LogLevel → Nat
  | LogLevel.debug => 10
  | LogLevel.info => 20
  | LogLevel.warn => 30
  | LogLevel.error => 40

namespace AppLogger

/-- `SENSITIVE_KEYS` of the app logger (`part_012` line 10). -/
def SENSITIVE_KEYS : List String :=
  ["api", "key", "token", "secret", "authorization", "password", "content"]

/-- `SENSITIVE_KEYS.some((p) => k.toLowerCase().includes(p))`. -/
def isSensitiveKey (k : String) : Bool :=
  SENSITIVE_KEYS.any (fun p => strIncludes (jsToLower k) p)

/-- The string branch of `sanitize` (`part_012` lines 17-19): a string whose
own text contains a sensitive substring is replaced wholesale. -/
def redactString (s : String) : JsValue :=
  if SENSITIVE_KEYS.any (fun p => strIncludes (jsToLower s) p) then JsValue.str "[REDACTED]"
  else JsValue.str s

mutual
/-- `sanitize` of the app logger (`part_012` lines 12-38). -/
def sanitize : JsValue → JsValue
  | JsValue.errVal n m =>
    JsValue.obj (JsObj.cons "name" (JsValue.str n)
      (JsObj.cons "message" (redactString m) JsObj.nil))
  | JsValue.str s => redactString s
  | JsValue.arr xs => JsValue.arr (sanitizeArr xs)
  | JsValue.obj fs => JsValue.obj (sanitizeObj fs)
  | v => v
def sanitizeArr : JsArr → JsArr
  | JsArr.nil => JsArr.nil
  | JsArr.cons v tl => JsArr.cons (sanitize v) (sanitizeArr tl)
def sanitizeObj : JsObj → JsObj
  | JsObj.nil => JsObj.nil
  | JsObj.cons k v tl =>
    if isSensitiveKey k then JsObj.cons k (JsValue.str "[REDACTED]") (sanitizeObj tl)
    else JsObj.cons k (sanitize v) (sanitizeObj tl)
end

/-- `log` of the app logger (`part_012` lines 47-53): below the active level
nothing is written; otherwise every argument is sanitized. -/
def logOutput (currentLevel : Nat) (level : LogLevel) (args : List JsValue) :
    Option (List JsValue) :=
  if levelNum level < currentLevel then none else some (args.map sanitize)

end AppLogger

namespace ServerLogger

/-- `SENSITIVE_KEYS` of the server logger (`part_013` line 15): no
`password` entry. -/
def SENSITIVE_KEYS : List String :=
  ["api", "key", "token", "secret", "authorization", "content"]

/-- `SENSITIVE_KEYS.some((p) => k.toLowerCase().includes(p))`. -/
def isSensitiveKey (k : String) : Bool :=
  SENSITIVE_KEYS.any (fun p => strIncludes (jsToLower k) p)

mutual
/-- `sanitize` of the server logger (`part_013` lines 17-39): `Error` keeps
only `name`; plain strings pass through unchanged. -/
def sanitize : JsValue → JsValue
  | JsValue.errVal n _ => JsValue.obj (JsObj.cons "name" (JsValue.str n) JsObj.nil)
  | JsValue.arr xs => JsValue.arr (sanitizeArr xs)
  | JsValue.obj fs => JsValue.obj (sanitizeObj fs)
  | v => v
def sanitizeArr : JsArr → JsArr
  | JsArr.nil => JsArr.nil
  | JsArr.cons v tl => JsArr.cons (sanitize v) (sanitizeArr tl)
def sanitizeObj : JsObj → JsObj
  | JsObj.nil => JsObj.nil
  | JsObj.cons k v tl =>
    if isSensitiveKey k then JsObj.cons k (JsValue.str "[REDACTED]") (sanitizeObj tl)
    else JsObj.cons k (sanitize v) (sanitizeObj tl)
end

/-- `log` of the server logger (`part_013` lines 41-47). -/
def logOutput (currentLevel : Nat) (level : LogLevel) (args : List JsValue) :
    Option (List JsValue) :=
  if levelNum level < currentLevel then none else some (args.map sanitize)

end ServerLogger

/-- Is a value the redaction marker? -/
def isRedactedMarker : JsValue → Bool
  | JsValue.str s => s == "[REDACTED]"
  | _ => false

mutual
/-- The redaction property: inside every object, the value under a key the
predicate deems sensitive is the literal redaction marker, recursively
through arrays and objects. -/
def redactedOk (sens : String → Bool) : JsValue → Bool
  | JsValue.arr xs => redactedOkArr sens xs
  | JsValue.obj fs => redactedOkObj sens fs
  | _ => true
def redactedOkArr (sens : String → Bool) : JsArr → Bool
  | JsArr.nil => true
  | JsArr.cons v tl => redactedOk sens v && redactedOkArr sens tl
def redactedOkObj (sens : String → Bool) : JsObj → Bool
  | JsObj.nil => true
  | JsObj.cons k v tl =>
    (if sens k then isRedactedMarker v else redactedOk sens v) && redactedOkObj sens tl
end

/-! ## Claims -/

/-- Claim C7: for every operation and retry options whose `retryCondition`
rejects every error, a failing first attempt makes `withRetry` perform
exactly one attempt — the operation is invoked exactly once — and propagate
that error unchanged, regardless of `maxAttempts`. -/
theorem retry_stops_when_condition_false {α : Type} (opts : RetryOptions)
    (env : RetryEnv α) (e : JsError)
    (hcond : ∀ e', opts.retryCondition e' = false)
    (hmax : 1 ≤ opts.maxAttempts)
    (honline : env.online 1 = true)
    (hrun : env.run 1 = Except.error e) :
    withRetry opts env = (Except.error e, 1) := by
  obtain ⟨m, hm⟩ : ∃ m, opts.maxAttempts = m + 1 := ⟨opts.maxAttempts - 1, by omega⟩
  unfold withRetry
  rw [hm]
  simp only [withRetryGo, honline, if_true, hrun]
  by_cases h1 : 1 = opts.maxAttempts
  · simp [h1]
  · simp [h1, hcond e]

/-- Concrete instance of the previous theorem. -/
def c7opts : RetryOptions := { maxAttempts := 5, retryCondition := fun _ => false }

/-- The environment of the witness: always online, the operation always
fails. -/
def c7env : RetryEnv Nat :=
  { online := fun _ => true, run := fun _ => Except.error { message := "boom" } }

theorem retry_stops_when_condition_false_witness :
    withRetry c7opts c7env = (Except.error { message := "boom" }, 1) :=
  retry_stops_when_condition_false c7opts c7env { message := "boom" }
    (fun _ => rfl) (by norm_num [c7opts]) rfl rfl

/-- Claim C8: the pre-jitter delay of attempt `n ≥ 1` is
`min (baseDelay * backoffFactor ^ (n - 1)) maxDelay`; for the configuration
`backoffFactor = 2, baseDelay = 1000, maxDelay = 30000` the sequence is
1000, 2000, 4000, 8000, 16000 and then capped at 30000; with jitter enabled
the returned delay differs from the pre-jitter value by at most 10 percent
of it and is never negative, for every random draw in `[0, 1]`. -/
theorem backoff_delay_formula (opts : RetryOptions) (n : Nat) (rand : ℚ)
    (hn : 1 ≤ n) (hbase : 0 ≤ opts.baseDelay) (hfac : 0 ≤ opts.backoffFactor)
    (hmaxd : 0 ≤ opts.maxDelay) (hr0 : 0 ≤ rand) (hr1 : rand ≤ 1) :
    (opts.jitter = false →
      calculateDelay n opts rand =
        min (opts.baseDelay * opts.backoffFactor ^ (n - 1)) opts.maxDelay) ∧
    ([1, 2, 3, 4, 5].map (fun k => calculateDelay k { jitter := false } rand) =
      [1000, 2000, 4000, 8000, 16000]) ∧
    (6 ≤ n → calculateDelay n { jitter := false } rand = 30000) ∧
    (opts.jitter = true →
      |calculateDelay n opts rand -
          min (opts.baseDelay * opts.backoffFactor ^ (n - 1)) opts.maxDelay| ≤
        min (opts.baseDelay * opts.backoffFactor ^ (n - 1)) opts.maxDelay / 10 ∧
      0 ≤ calculateDelay n opts rand) := by
  refine ⟨?_, ?_, ?_, ?_⟩
  · intro hjit
    simp [calculateDelay, hjit]
  · norm_num [calculateDelay]
  · intro h6
    have h5 : (2 : ℚ) ^ 5 ≤ 2 ^ (n - 1) := by
      apply pow_le_pow_right₀ (by norm_num)
      omega
    have h32 : (30000 : ℚ) ≤ 1000 * 2 ^ (n - 1) := by nlinarith
    simp only [calculateDelay]
    norm_num
    exact h32
  · intro hjit
    simp only [calculateDelay, hjit, if_true]
    set c := min (opts.baseDelay * opts.backoffFactor ^ (n - 1)) opts.maxDelay with hcdef
    have hc : 0 ≤ c :=
      le_min (mul_nonneg hbase (pow_nonneg hfac _)) hmaxd
    set j := (rand - 1 / 2) * 2 * (c * (1 / 10)) with hjdef
    have hj1 : j ≤ c / 10 := by rw [hjdef]; nlinarith
    have hj2 : -(c / 10) ≤ j := by rw [hjdef]; nlinarith
    have hpos : (0 : ℚ) ≤ c + j := by nlinarith
    rw [max_eq_right hpos]
    constructor
    · rw [abs_le]
      constructor <;> nlinarith
    · exact hpos

theorem backoff_delay_formula_witness :
    ([1, 2, 3, 4, 5].map (fun k => calculateDelay k { jitter := false } (1 / 4)) =
      [1000, 2000, 4000, 8000, 16000]) ∧
    calculateDelay 7 { jitter := false } (1 / 4) = 30000 ∧
    |calculateDelay 2 {} (1 / 4) - 2000| ≤ 200 ∧ 0 ≤ calculateDelay 2 {} (1 / 4) := by
  have h2 := backoff_delay_formula {} 2 (1 / 4) (by norm_num) (by norm_num)
    (by norm_num) (by norm_num) (by norm_num) (by norm_num)
  have h7 := backoff_delay_formula {} 7 (1 / 4) (by norm_num) (by norm_num)
    (by norm_num) (by norm_num) (by norm_num) (by norm_num)
  refine ⟨h2.2.1, h7.2.2.1 (by norm_num), ?_, (h2.2.2.2 rfl).2⟩
  have := (h2.2.2.2 rfl).1
  norm_num at this ⊢
  convert this using 2

/-- Claim C5: whenever the upstream response text does not parse as the
expected JSON structure, `generateEnhancedSEOBlog` does not propagate the
parse error: the catch branch returns the synthesized fallback object,
whose title is non-empty, whose FAQ array is non-empty, whose content is the
raw response text, and whose word count is the number of non-empty
whitespace-separated tokens of the raw text. -/
theorem fallback_synthesis_wellformed (jsonParse : String → Option RawBlog)
    (topic content : String)
    (h : tryParseBlog jsonParse content = none) :
    handleBlogContent jsonParse topic content = createFallbackBlogData topic content ∧
    (createFallbackBlogData topic content).title ≠ "" ∧
    (∃ faqs, (createFallbackBlogData topic content).faqSection = some faqs ∧ faqs ≠ []) ∧
    (createFallbackBlogData topic content).content = content ∧
    (createFallbackBlogData topic content).wordCount = countWords content := by
  refine ⟨?_, ?_, ⟨_, rfl, by simp⟩, rfl, rfl⟩
  · simp [handleBlogContent, h]
  · intro hcontra
    have hlen := congrArg String.length hcontra
    rw [show (createFallbackBlogData topic content).title =
        "The Complete Guide to " ++ topic from rfl] at hlen
    rw [String.length_append] at hlen
    have h1 : "The Complete Guide to ".length = 22 := by decide
    have h2 : "".length = 0 := by decide
    omega

theorem fallback_synthesis_wellformed_witness :
    tryParseBlog (fun _ => none) "hello world" = none ∧
    handleBlogContent (fun _ => none) "seo" "hello world" =
      createFallbackBlogData "seo" "hello world" ∧
    (createFallbackBlogData "seo" "hello world").title ≠ "" ∧
    (createFallbackBlogData "seo" "hello world").wordCount = 2 := by
  have h := fallback_synthesis_wellformed (fun _ => none) "seo" "hello world" rfl
  refine ⟨rfl, h.1, h.2.1, ?_⟩
  rw [h.2.2.2.2]
  decide

/-- Shared behaviour of a successful settlement: what it stores, and when a
later call is served from the cache versus started upstream. -/
theorem settle_store_and_serve (options : BlogGenerationOptions) (result : GeneratedBlog)
    (T : Nat) (st : BlogServiceState) (st' : BlogServiceState)
    (hst' : st' = (settleFlight options (Except.ok result) T st).1) :
    lookupAssoc st'.blogCacheMem (blogKey options) =
      some { data := result, expiresAt := T + BLOG_TTL_MS } ∧
    (∀ now, now < T + BLOG_TTL_MS →
      generateEnhancedSEOBlogStart options now st' = (st', CallRoute.cached result)) ∧
    (∀ now, T + BLOG_TTL_MS ≤ now →
      (generateEnhancedSEOBlogStart options now st').2 =
        CallRoute.started st'.nextFlightId ∧
      (generateEnhancedSEOBlogStart options now st').1.upstreamCalls =
        st'.upstreamCalls + 1) ∧
    (∀ ε, 1 ≤ ε →
      generateEnhancedSEOBlogStart options (T + BLOG_TTL_MS - ε) st' =
        (st', CallRoute.cached result)) := by
  subst hst'
  have h1 : lookupAssoc (settleFlight options (Except.ok result) T st).1.blogCacheMem
      (blogKey options) = some { data := result, expiresAt := T + BLOG_TTL_MS } := by
    simp only [settleFlight]
    exact lookupAssoc_mapSet_self _ _ _
  have hserve : ∀ now, now < T + BLOG_TTL_MS →
      generateEnhancedSEOBlogStart options now
        (settleFlight options (Except.ok result) T st).1 =
        ((settleFlight options (Except.ok result) T st).1, CallRoute.cached result) := by
    intro now hnow
    simp [generateEnhancedSEOBlogStart, cacheLookupLive, h1, hnow]
  refine ⟨h1, hserve, ?_, ?_⟩
  · intro now hnow
    have hflight : lookupAssoc
        (settleFlight options (Except.ok result) T st).1.inFlightBlogs
        (blogKey options) = none := by
      simp only [settleFlight]
      exact lookupAssoc_mapDelete_self _ _
    have hdead : ¬ (now < T + BLOG_TTL_MS) := by omega
    constructor <;>
      simp [generateEnhancedSEOBlogStart, cacheLookupLive, h1, hdead, hflight]
  · intro ε hε
    apply hserve
    have : 0 < BLOG_TTL_MS := by norm_num [BLOG_TTL_MS]
    omega

/-- Claim C2: a cache entry stored at completion time `T` carries
`expiresAt = T + 24h`; a later call with the same normalized key at time
`now` is served from the cache with no upstream call exactly when
`expiresAt > now` (strict), so it is served at `T + 24h - ε` for every
`ε ≥ 1` millisecond and recomputes at `T + 24h` or later. -/
theorem cache_ttl_strict (options : BlogGenerationOptions) (result : GeneratedBlog)
    (T : Nat) (st : BlogServiceState) (st' : BlogServiceState)
    (hst' : st' = (settleFlight options (Except.ok result) T st).1) :
    lookupAssoc st'.blogCacheMem (blogKey options) =
      some { data := result, expiresAt := T + BLOG_TTL_MS } ∧
    (∀ now, now < T + BLOG_TTL_MS →
      generateEnhancedSEOBlogStart options now st' = (st', CallRoute.cached result)) ∧
    (∀ now, T + BLOG_TTL_MS ≤ now →
      (generateEnhancedSEOBlogStart options now st').2 =
        CallRoute.started st'.nextFlightId ∧
      (generateEnhancedSEOBlogStart options now st').1.upstreamCalls =
        st'.upstreamCalls + 1) ∧
    (∀ ε, 1 ≤ ε →
      generateEnhancedSEOBlogStart options (T + BLOG_TTL_MS - ε) st' =
        (st', CallRoute.cached result)) :=
  settle_store_and_serve options result T st st' hst'

/-- Concrete blog object used by the cache witnesses. -/
def witnessBlog : GeneratedBlog :=
  { title := "t", metaDescription := "m", content := "c", keywords := [],
    headings := [], seoScore := 1, readingTime := 1, wordCount := 1 }

theorem cache_ttl_strict_witness :
    lookupAssoc (settleFlight { topic := "seo" } (Except.ok witnessBlog) 0 {}).1.blogCacheMem
      (blogKey { topic := "seo" }) =
      some { data := witnessBlog, expiresAt := 0 + BLOG_TTL_MS } ∧
    generateEnhancedSEOBlogStart { topic := "seo" } 86399999
      (settleFlight { topic := "seo" } (Except.ok witnessBlog) 0 {}).1 =
      ((settleFlight { topic := "seo" } (Except.ok witnessBlog) 0 {}).1,
        CallRoute.cached witnessBlog) ∧
    (generateEnhancedSEOBlogStart { topic := "seo" } 86400000
      (settleFlight { topic := "seo" } (Except.ok witnessBlog) 0 {}).1).2 =
      CallRoute.started
        (settleFlight { topic := "seo" } (Except.ok witnessBlog) 0 {}).1.nextFlightId := by
  have h := cache_ttl_strict { topic := "seo" } witnessBlog 0 {} _ rfl
  exact ⟨h.1, h.2.1 86399999 (by norm_num [BLOG_TTL_MS]),
    (h.2.2.1 86400000 (by norm_num [BLOG_TTL_MS])).1⟩

/-- Claim C6 (implicit): when the upstream call succeeds but its response
fails parsing, the shared task settles successfully with the synthesized
fallback object, which is then stored in the 24-hour result cache under the
normalized key exactly as a successfully parsed result would be; every
identical request within the following 24 hours is served that degraded
fallback from cache, with the state — in particular the upstream-call
counter — unchanged. -/
theorem fallback_cached_24h (jsonParse : String → Option RawBlog)
    (options : BlogGenerationOptions) (content : String) (T : Nat)
    (st st' : BlogServiceState)
    (hcontent : content ≠ "")
    (hparse : tryParseBlog jsonParse content = none)
    (hst' : st' = (settleFlight options
      (blogTaskOutcome jsonParse options.topic (Except.ok (some content))) T st).1) :
    blogTaskOutcome jsonParse options.topic (Except.ok (some content)) =
      Except.ok (createFallbackBlogData options.topic content) ∧
    lookupAssoc st'.blogCacheMem (blogKey options) =
      some { data := createFallbackBlogData options.topic content,
             expiresAt := T + BLOG_TTL_MS } ∧
    (∀ now, now < T + BLOG_TTL_MS →
      generateEnhancedSEOBlogStart options now st' =
        (st', CallRoute.cached (createFallbackBlogData options.topic content))) := by
  have houtcome : blogTaskOutcome jsonParse options.topic (Except.ok (some content)) =
      Except.ok (createFallbackBlogData options.topic content) := by
    simp [blogTaskOutcome, hcontent, handleBlogContent, hparse]
  rw [houtcome] at hst'
  have h := settle_store_and_serve options (createFallbackBlogData options.topic content)
    T st st' hst'
  exact ⟨houtcome, h.1, h.2.1⟩

theorem fallback_cached_24h_witness :
    blogTaskOutcome (fun _ => none) "seo" (Except.ok (some "raw text")) =
      Except.ok (createFallbackBlogData "seo" "raw text") ∧
    generateEnhancedSEOBlogStart { topic := "seo" } 1000
      (settleFlight { topic := "seo" }
        (blogTaskOutcome (fun _ => none) "seo" (Except.ok (some "raw text"))) 0 {}).1 =
      ((settleFlight { topic := "seo" }
        (blogTaskOutcome (fun _ => none) "seo" (Except.ok (some "raw text"))) 0 {}).1,
        CallRoute.cached (createFallbackBlogData "seo" "raw text")) := by
  have h := fallback_cached_24h (fun _ => none) { topic := "seo" } "raw text" 0 {} _
    (by decide) rfl rfl
  exact ⟨h.1, h.2.2 1000 (by norm_num [BLOG_TTL_MS])⟩

theorem startMany_all_join (options : BlogGenerationOptions) (now : Nat) (fid : Nat) :
    ∀ (n : Nat) (st : BlogServiceState),
      cacheLookupLive st (blogKey options) now = none →
      lookupAssoc st.inFlightBlogs (blogKey options) = some fid →
      startMany options now st n = (st, List.replicate n (CallRoute.joined fid)) := by
  intro n
  induction n with
  | zero => intro st _ _; rfl
  | succ m ih =>
    intro st hcache hflight
    have hstep : generateEnhancedSEOBlogStart options now st = (st, CallRoute.joined fid) := by
      simp [generateEnhancedSEOBlogStart, hcache, hflight]
    simp [startMany, hstep, ih st hcache hflight, List.replicate_succ]

/-- Claim C1: with no live cache entry and no in-flight entry for the
normalized key, `n ≥ 2` concurrent calls start exactly one upstream task
(the first caller registers it; every other caller joins the same pending
promise); the registry holds at most one entry for the key after every
prefix of the calls; all `n` callers resolve with the same outcome of the
one shared task; and settling the task removes the in-flight entry whether
it succeeded or failed. -/
theorem coalescing_single_upstream (options : BlogGenerationOptions)
    (st : BlogServiceState) (now later n : Nat)
    (outcome : Except JsError GeneratedBlog)
    (hcache : cacheLookupLive st (blogKey options) now = none)
    (hflight : lookupAssoc st.inFlightBlogs (blogKey options) = none)
    (hn : 2 ≤ n) :
    (startMany options now st n).1.upstreamCalls = st.upstreamCalls + 1 ∧
    (startMany options now st n).2 =
      CallRoute.started st.nextFlightId ::
        List.replicate (n - 1) (CallRoute.joined st.nextFlightId) ∧
    countKey (startMany options now st n).1.inFlightBlogs (blogKey options) = 1 ∧
    (∀ i, i ≤ n →
      countKey (startMany options now st i).1.inFlightBlogs (blogKey options) ≤ 1) ∧
    (startMany options now st n).2.map (resolveRoute outcome) =
      List.replicate n outcome ∧
    lookupAssoc
      (settleFlight options outcome later (startMany options now st n).1).1.inFlightBlogs
      (blogKey options) = none := by
  obtain ⟨m, rfl⟩ : ∃ m, n = m + 1 := ⟨n - 1, by omega⟩
  set st1 : BlogServiceState :=
    { st with
        inFlightBlogs := st.inFlightBlogs ++ [(blogKey options, st.nextFlightId)]
        nextFlightId := st.nextFlightId + 1
        upstreamCalls := st.upstreamCalls + 1 } with hst1
  have hstep : generateEnhancedSEOBlogStart options now st =
      (st1, CallRoute.started st.nextFlightId) := by
    simp [generateEnhancedSEOBlogStart, hcache, hflight, hst1]
  have hcache1 : cacheLookupLive st1 (blogKey options) now = none := by
    simpa [cacheLookupLive, hst1] using hcache
  have hflight1 : lookupAssoc st1.inFlightBlogs (blogKey options) =
      some st.nextFlightId := by
    simp only [hst1]
    exact lookupAssoc_append_of_none _ _ _ hflight
  have hrest := startMany_all_join options now st.nextFlightId m st1 hcache1 hflight1
  have hmain : startMany options now st (m + 1) =
      (st1, CallRoute.started st.nextFlightId ::
        List.replicate m (CallRoute.joined st.nextFlightId)) := by
    simp [startMany, hstep, hrest]
  have hcount1 : countKey st1.inFlightBlogs (blogKey options) = 1 := by
    simp only [hst1]
    rw [countKey_append_single, countKey_eq_zero_of_lookup_none _ _ hflight]
  refine ⟨by simp [hmain, hst1], by simp [hmain], by simp [hmain, hcount1], ?_, ?_, ?_⟩
  · intro i hi
    match i with
    | 0 => simp [startMany, countKey_eq_zero_of_lookup_none _ _ hflight]
    | j + 1 =>
      have := startMany_all_join options now st.nextFlightId j st1 hcache1 hflight1
      simp [startMany, hstep, this, hcount1]
  · simp [hmain, resolveRoute, List.map_replicate, List.replicate_succ]
  · rw [hmain]
    cases outcome <;> simp [settleFlight, lookupAssoc_mapDelete_self]

theorem coalescing_single_upstream_witness :
    (startMany { topic := "seo" } 0 {} 3).1.upstreamCalls = 1 ∧
    (startMany { topic := "seo" } 0 {} 3).2 =
      [CallRoute.started 0, CallRoute.joined 0, CallRoute.joined 0] ∧
    (startMany { topic := "seo" } 0 {} 3).2.map
        (resolveRoute (Except.error { message := "fail" })) =
      [Except.error { message := "fail" }, Except.error { message := "fail" },
        Except.error { message := "fail" }] ∧
    lookupAssoc
      (settleFlight { topic := "seo" } (Except.error { message := "fail" }) 9
        (startMany { topic := "seo" } 0 {} 3).1).1.inFlightBlogs
      (blogKey { topic := "seo" }) = none := by
  have h := coalescing_single_upstream { topic := "seo" } {} 0 9 3
    (Except.error { message := "fail" }) rfl rfl (by norm_num)
  refine ⟨by simpa using h.1, by simpa using h.2.1, by simpa using h.2.2.2.2.1,
    h.2.2.2.2.2⟩

theorem processQueueLoop_trace_front (online : Nat → Bool)
    (exec : QueuedTask → Except Unit GeneratedBlog) :
    ∀ (queue : List QueuedTask) (i : Nat) (blogs : List BlogPost),
      ∃ rest, (processQueueLoop online exec i blogs queue).1 ++ rest = queue := by
  intro queue
  induction queue with
  | nil => intro i blogs; exact ⟨[], rfl⟩
  | cons task restq ih =>
    intro i blogs
    by_cases ho : online i = true
    · cases hexec : exec task with
      | ok blogData =>
        obtain ⟨r, hr⟩ := ih (i + 1) (mkBlogPost task blogData :: blogs)
        exact ⟨r, by simp [processQueueLoop, ho, hexec, hr]⟩
      | error u =>
        by_cases h3 : 3 ≤ task.attempts + 1
        · obtain ⟨r, hr⟩ := ih (i + 1) blogs
          exact ⟨r, by simp [processQueueLoop, ho, hexec, h3, hr]⟩
        · exact ⟨restq, by simp [processQueueLoop, ho, hexec, h3]⟩
    · exact ⟨task :: restq, by simp [processQueueLoop, ho]⟩

theorem processQueueLoop_attempts_bound (online : Nat → Bool)
    (exec : QueuedTask → Except Unit GeneratedBlog) :
    ∀ (queue : List QueuedTask) (i : Nat) (blogs : List BlogPost),
      (∀ u ∈ queue, u.attempts ≤ 2) →
      (∀ u ∈ (processQueueLoop online exec i blogs queue).2.2, u.attempts ≤ 2) ∧
      (∀ u ∈ (processQueueLoop online exec i blogs queue).1, u.attempts ≤ 2) := by
  intro queue
  induction queue with
  | nil => intro i blogs _; simp [processQueueLoop]
  | cons task restq ih =>
    intro i blogs hb
    have hbt : task.attempts ≤ 2 := hb task (by simp)
    have hbr : ∀ u ∈ restq, u.attempts ≤ 2 := fun u hu => hb u (by simp [hu])
    by_cases ho : online i = true
    · cases hexec : exec task with
      | ok blogData =>
        have := ih (i + 1) (mkBlogPost task blogData :: blogs) hbr
        constructor
        · intro u hu
          apply this.1
          simpa [processQueueLoop, ho, hexec] using hu
        · intro u hu
          simp only [processQueueLoop, ho, if_true, hexec] at hu
          rcases List.mem_cons.mp hu with h | h
          · exact h ▸ hbt
          · exact this.2 u h
      | error v =>
        by_cases h3 : 3 ≤ task.attempts + 1
        · have := ih (i + 1) blogs hbr
          constructor
          · intro u hu
            apply this.1
            simpa [processQueueLoop, ho, hexec, h3] using hu
          · intro u hu
            simp only [processQueueLoop, ho, if_true, hexec, h3] at hu
            rcases List.mem_cons.mp hu with h | h
            · exact h ▸ hbt
            · exact this.2 u h
        · constructor
          · intro u hu
            simp only [processQueueLoop, ho, if_true, hexec, h3, if_false] at hu
            rcases List.mem_cons.mp hu with h | h
            · subst h; simp; omega
            · exact hbr u h
          · intro u hu
            simp only [processQueueLoop, ho, if_true, hexec, h3, if_false] at hu
            rcases List.mem_singleton.mp hu with h
            exact h ▸ hbt
    · constructor
      · intro u hu
        simp only [processQueueLoop, ho] at hu
        exact hb u (by simpa using hu)
      · intro u hu
        simp [processQueueLoop, ho] at hu

/-- Claim C3: when the head task fails during a drain, its `attempts`
counter is incremented by one; if the incremented count reaches 3 the task
is removed and draining continues with the next task, otherwise the drain
halts with the incremented task kept at the head.  Hence a task entering
with `attempts = 0` that fails on every drain is removed by the end of its
3rd failed attempt (the queue records `attempts` 1, then 2, then the task is
gone), and since every queued task keeps `attempts ≤ 2`, no recorded value —
including the transient increment of an executed task — ever exceeds 3. -/
theorem queue_drop_after_three (online : Nat → Bool)
    (exec : QueuedTask → Except Unit GeneratedBlog)
    (t : QueuedTask) (rest : List QueuedTask) (i : Nat) (blogs : List BlogPost)
    (st : HistoryState) :
    (online i = true → exec t = Except.error () →
      (3 ≤ t.attempts + 1 →
        processQueueLoop online exec i blogs (t :: rest) =
          (t :: (processQueueLoop online exec (i + 1) blogs rest).1,
            (processQueueLoop online exec (i + 1) blogs rest).2)) ∧
      (t.attempts + 1 < 3 →
        processQueueLoop online exec i blogs (t :: rest) =
          ([t], blogs, { t with attempts := t.attempts + 1 } :: rest))) ∧
    ((∀ u ∈ st.queuedTasks, u.attempts ≤ 2) →
      (∀ u ∈ (processQueue online exec st).2.queuedTasks, u.attempts ≤ 2) ∧
      (∀ u ∈ (processQueue online exec st).1, u.attempts + 1 ≤ 3)) ∧
    (t.attempts = 0 → (∀ u, exec u = Except.error ()) → (∀ j, online j = true) →
      (processQueue online exec { blogs := blogs, queuedTasks := [t] }).2 =
        { blogs := blogs, queuedTasks := [{ t with attempts := 1 }] } ∧
      (processQueue online exec
        { blogs := blogs, queuedTasks := [{ t with attempts := 1 }] }).2 =
        { blogs := blogs, queuedTasks := [{ t with attempts := 2 }] } ∧
      (processQueue online exec
        { blogs := blogs, queuedTasks := [{ t with attempts := 2 }] }).2 =
        { blogs := blogs, queuedTasks := [] }) := by
  refine ⟨?_, ?_, ?_⟩
  · intro ho hexec
    constructor
    · intro h3
      simp [processQueueLoop, ho, hexec, h3]
    · intro h3
      have h3' : ¬ 3 ≤ t.attempts + 1 := by omega
      simp [processQueueLoop, ho, hexec, h3']
  · intro hb
    by_cases hguard : ¬ online 0 = true ∨ st.queuedTasks = []
    · constructor
      · intro u hu
        unfold processQueue at hu
        rw [if_pos hguard] at hu
        exact hb u hu
      · intro u hu
        unfold processQueue at hu
        rw [if_pos hguard] at hu
        simp at hu
    · have h := processQueueLoop_attempts_bound online exec st.queuedTasks 1 st.blogs hb
      constructor
      · intro u hu
        unfold processQueue at hu
        rw [if_neg hguard] at hu
        exact h.1 u hu
      · intro u hu
        unfold processQueue at hu
        rw [if_neg hguard] at hu
        have := h.2 u hu
        omega
  · intro ht hfail hon
    refine ⟨?_, ?_, ?_⟩
    · simp [processQueue, processQueueLoop, hon 0, hon 1, hfail, ht]
    · simp [processQueue, processQueueLoop, hon 0, hon 1, hfail]
    · simp [processQueue, processQueueLoop, hon 0, hon 1, hon 2, hfail]

/-- The always-failing task of the queue witnesses. -/
def witnessTask : QueuedTask :=
  { id := "task-1", topic := "seo", withResearch := false, attempts := 0 }

theorem queue_drop_after_three_witness :
    processQueueLoop (fun _ => true) (fun _ => Except.error ()) 1 [] [witnessTask] =
      ([witnessTask], [], [{ witnessTask with attempts := 1 }]) ∧
    (∀ u ∈ (processQueue (fun _ => true) (fun _ => Except.error ())
      { blogs := [], queuedTasks := [witnessTask] }).2.queuedTasks, u.attempts ≤ 2) ∧
    (processQueue (fun _ => true) (fun _ => Except.error ())
      { blogs := [], queuedTasks := [{ witnessTask with attempts := 2 }] }).2 =
      { blogs := [], queuedTasks := [] } := by
  have h := queue_drop_after_three (fun _ => true) (fun _ => Except.error ())
    witnessTask [] 1 [] { blogs := [], queuedTasks := [witnessTask] }
  refine ⟨?_, ?_, ?_⟩
  · exact (h.1 rfl rfl).2 (by norm_num [witnessTask])
  · exact fun u hu => ((h.2.1 (by intro u hu; simp [witnessTask] at hu; simp [hu])).1) u hu
  · exact (h.2.2 rfl (fun _ => rfl) (fun _ => rfl)).2.2

/-- Claim C4: `processQueue` is a no-op when the monitor reports offline or
the queue is empty; otherwise it processes tasks strictly in FIFO order one
at a time (the executed-task trace is always a prefix of the queue); and for
a queue `[A, B, C]` where `A` fails with its incremented count still below
3, the invocation stops at once, leaving the queue ordered `[A, B, C]` with
`A` (its `attempts` incremented) at the head and `B`, `C` never attempted
in that invocation. -/
theorem queue_fifo_halt_order (online : Nat → Bool)
    (exec : QueuedTask → Except Unit GeneratedBlog) (st : HistoryState)
    (A B C : QueuedTask) (blogs : List BlogPost) :
    (online 0 = false → processQueue online exec st = ([], st)) ∧
    (st.queuedTasks = [] → processQueue online exec st = ([], st)) ∧
    (∃ rest, (processQueue online exec st).1 ++ rest = st.queuedTasks) ∧
    ((∀ i, online i = true) → exec A = Except.error () → A.attempts + 1 < 3 →
      processQueue online exec { blogs := blogs, queuedTasks := [A, B, C] } =
        ([A], { blogs := blogs,
                queuedTasks := [{ A with attempts := A.attempts + 1 }, B, C] })) := by
  refine ⟨?_, ?_, ?_, ?_⟩
  · intro hoff
    unfold processQueue
    rw [if_pos (Or.inl (by simp [hoff]))]
  · intro hq
    unfold processQueue
    rw [if_pos (Or.inr hq)]
  · by_cases hguard : ¬ online 0 = true ∨ st.queuedTasks = []
    · refine ⟨st.queuedTasks, ?_⟩
      unfold processQueue
      rw [if_pos hguard]
      rfl
    · obtain ⟨r, hr⟩ :=
        processQueueLoop_trace_front online exec st.queuedTasks 1 st.blogs
      refine ⟨r, ?_⟩
      unfold processQueue
      rw [if_neg hguard]
      exact hr
  · intro hon hexec h3
    have h3' : ¬ 3 ≤ A.attempts + 1 := by omega
    unfold processQueue
    rw [if_neg (by push_neg; exact ⟨hon 0, by simp⟩)]
    simp [processQueueLoop, hon 1, hexec, h3']

/-- Tasks `B` and `C` of the FIFO witness. -/
def witnessTaskB : QueuedTask :=
  { id := "task-2", topic := "b", withResearch := false, attempts := 0 }

/-- Task `C` of the FIFO witness. -/
def witnessTaskC : QueuedTask :=
  { id := "task-3", topic := "c", withResearch := true, attempts := 0 }

theorem queue_fifo_halt_order_witness :
    processQueue (fun _ => false) (fun _ => Except.error ())
      { blogs := [], queuedTasks := [witnessTask] } =
      ([], { blogs := [], queuedTasks := [witnessTask] }) ∧
    (∃ rest, (processQueue (fun _ => true) (fun _ => Except.error ())
      { blogs := [], queuedTasks := [witnessTask, witnessTaskB, witnessTaskC] }).1 ++
        rest = [witnessTask, witnessTaskB, witnessTaskC]) ∧
    processQueue (fun _ => true) (fun _ => Except.error ())
      { blogs := [], queuedTasks := [witnessTask, witnessTaskB, witnessTaskC] } =
      ([witnessTask],
        { blogs := [],
          queuedTasks := [{ witnessTask with attempts := 1 }, witnessTaskB,
            witnessTaskC] }) := by
  have hoff := queue_fifo_halt_order (fun _ => false) (fun _ => Except.error ())
    { blogs := [], queuedTasks := [witnessTask] } witnessTask witnessTaskB witnessTaskC []
  have hon := queue_fifo_halt_order (fun _ => true) (fun _ => Except.error ())
    { blogs := [], queuedTasks := [witnessTask, witnessTaskB, witnessTaskC] }
    witnessTask witnessTaskB witnessTaskC []
  refine ⟨hoff.1 rfl, hon.2.2.1, ?_⟩
  have := hon.2.2.2 (fun _ => rfl) rfl (by norm_num [witnessTask])
  simpa [witnessTask] using this

mutual
theorem appSanitize_redacted : ∀ v : JsValue,
    redactedOk AppLogger.isSensitiveKey (AppLogger.sanitize v) = true
  | JsValue.str s => by
    unfold AppLogger.sanitize AppLogger.redactString
    split <;> rfl
  | JsValue.num _ => rfl
  | JsValue.boolVal _ => rfl
  | JsValue.nullVal => rfl
  | JsValue.errVal n m => by
    have hname : AppLogger.isSensitiveKey "name" = false := by decide
    have hmsg : AppLogger.isSensitiveKey "message" = false := by decide
    have hr : redactedOk AppLogger.isSensitiveKey (AppLogger.redactString m) = true := by
      unfold AppLogger.redactString
      split <;> rfl
    simp [AppLogger.sanitize, redactedOk, redactedOkObj, hname, hmsg, hr]
  | JsValue.arr xs => by
    have := appSanitizeArr_redacted xs
    simpa [AppLogger.sanitize, redactedOk] using this
  | JsValue.obj fs => by
    have := appSanitizeObj_redacted fs
    simpa [AppLogger.sanitize, redactedOk] using this
theorem appSanitizeArr_redacted : ∀ xs : JsArr,
    redactedOkArr AppLogger.isSensitiveKey (AppLogger.sanitizeArr xs) = true
  | JsArr.nil => rfl
  | JsArr.cons v tl => by
    simp [AppLogger.sanitizeArr, redactedOkArr, appSanitize_redacted v,
      appSanitizeArr_redacted tl]
theorem appSanitizeObj_redacted : ∀ fs : JsObj,
    redactedOkObj AppLogger.isSensitiveKey (AppLogger.sanitizeObj fs) = true
  | JsObj.nil => rfl
  | JsObj.cons k v tl => by
    by_cases hk : AppLogger.isSensitiveKey k = true
    · simp [AppLogger.sanitizeObj, hk, redactedOkObj, isRedactedMarker,
        appSanitizeObj_redacted tl]
    · simp [AppLogger.sanitizeObj, hk, redactedOkObj, appSanitize_redacted v,
        appSanitizeObj_redacted tl]
end

mutual
theorem serverSanitize_redacted : ∀ v : JsValue,
    redactedOk ServerLogger.isSensitiveKey (ServerLogger.sanitize v) = true
  | JsValue.str _ => rfl
  | JsValue.num _ => rfl
  | JsValue.boolVal _ => rfl
  | JsValue.nullVal => rfl
  | JsValue.errVal n m => by
    have hname : ServerLogger.isSensitiveKey "name" = false := by decide
    simp [ServerLogger.sanitize, redactedOk, redactedOkObj, hname]
  | JsValue.arr xs => by
    have := serverSanitizeArr_redacted xs
    simpa [ServerLogger.sanitize, redactedOk] using this
  | JsValue.obj fs => by
    have := serverSanitizeObj_redacted fs
    simpa [ServerLogger.sanitize, redactedOk] using this
theorem serverSanitizeArr_redacted : ∀ xs : JsArr,
    redactedOkArr ServerLogger.isSensitiveKey (ServerLogger.sanitizeArr xs) = true
  | JsArr.nil => rfl
  | JsArr.cons v tl => by
    simp [ServerLogger.sanitizeArr, redactedOkArr, serverSanitize_redacted v,
      serverSanitizeArr_redacted tl]
theorem serverSanitizeObj_redacted : ∀ fs : JsObj,
    redactedOkObj ServerLogger.isSensitiveKey (ServerLogger.sanitizeObj fs) = true
  | JsObj.nil => rfl
  | JsObj.cons k v tl => by
    by_cases hk : ServerLogger.isSensitiveKey k = true
    · simp [ServerLogger.sanitizeObj, hk, redactedOkObj, isRedactedMarker,
        serverSanitizeObj_redacted tl]
    · simp [ServerLogger.sanitizeObj, hk, redactedOkObj, serverSanitize_redacted v,
        serverSanitizeObj_redacted tl]
end

/-- Claim C9 counterexample: passing an object whose key is named
`password` to the server logger at an active level leaves its value
untouched — it is not replaced by the redaction marker, contradicting the
claim that every logger redacts every key containing `password`. -/
theorem sanitize_password_not_redacted_server :
    ServerLogger.logOutput 10 LogLevel.info
        [JsValue.obj (JsObj.cons "password" (JsValue.str "hunter2") JsObj.nil)] =
      some [JsValue.obj (JsObj.cons "password" (JsValue.str "hunter2") JsObj.nil)] ∧
    "hunter2" ≠ "[REDACTED]" := by
  constructor
  · have h : ServerLogger.isSensitiveKey "password" = false := by decide
    simp [ServerLogger.logOutput, levelNum, ServerLogger.sanitize,
      ServerLogger.sanitizeObj, h]
  · decide

/-- Claim C9 (amended): for every value passed to a logger method at or
above the active level, the logged representation replaces the value of
every mapping key whose name contains (case-insensitively) a substring of
the sensitive list of that logger with `[REDACTED]`, recursively through
nested mappings and arrays; the app logger list is api, key, token, secret,
authorization, password, content, while the server logger list omits
`password` (api, key, token, secret, authorization, content), so a key
named exactly `password` is redacted by the app logger but not by the
server logger; a key named `apiKey` in any case is redacted by both at any
nesting depth. -/
theorem logger_redaction_amended (cur : Nat) (level : LogLevel)
    (args : List JsValue) (hlevel : ¬ levelNum level < cur) :
    (AppLogger.logOutput cur level args = some (args.map AppLogger.sanitize) ∧
      ∀ v ∈ args, redactedOk AppLogger.isSensitiveKey (AppLogger.sanitize v) = true) ∧
    (ServerLogger.logOutput cur level args = some (args.map ServerLogger.sanitize) ∧
      ∀ v ∈ args,
        redactedOk ServerLogger.isSensitiveKey (ServerLogger.sanitize v) = true) ∧
    AppLogger.isSensitiveKey "ApiKey" = true ∧
    ServerLogger.isSensitiveKey "APIKEY" = true ∧
    AppLogger.isSensitiveKey "password" = true ∧
    ServerLogger.isSensitiveKey "password" = false := by
  refine ⟨⟨?_, fun v _ => appSanitize_redacted v⟩,
    ⟨?_, fun v _ => serverSanitize_redacted v⟩,
    by decide, by decide, by decide, by decide⟩
  · simp [AppLogger.logOutput, hlevel]
  · simp [ServerLogger.logOutput, hlevel]

theorem logger_redaction_amended_witness :
    AppLogger.logOutput 10 LogLevel.info
        [JsValue.obj (JsObj.cons "ApiKey" (JsValue.str "123")
          (JsObj.cons "nested" (JsValue.arr (JsArr.cons
            (JsValue.obj (JsObj.cons "password" (JsValue.str "pw") JsObj.nil))
            JsArr.nil)) JsObj.nil))] =
      some [JsValue.obj (JsObj.cons "ApiKey" (JsValue.str "[REDACTED]")
        (JsObj.cons "nested" (JsValue.arr (JsArr.cons
          (JsValue.obj (JsObj.cons "password" (JsValue.str "[REDACTED]") JsObj.nil))
          JsArr.nil)) JsObj.nil))] ∧
    redactedOk AppLogger.isSensitiveKey
      (AppLogger.sanitize (JsValue.obj (JsObj.cons "ApiKey" (JsValue.str "123")
        JsObj.nil))) = true := by
  have h := logger_redaction_amended 10 LogLevel.info
    [JsValue.obj (JsObj.cons "ApiKey" (JsValue.str "123")
      (JsObj.cons "nested" (JsValue.arr (JsArr.cons
        (JsValue.obj (JsObj.cons "password" (JsValue.str "pw") JsObj.nil))
        JsArr.nil)) JsObj.nil))] (by norm_num [levelNum])
  have h2 := logger_redaction_amended 10 LogLevel.info
    [JsValue.obj (JsObj.cons "ApiKey" (JsValue.str "123") JsObj.nil)]
    (by norm_num [levelNum])
  refine ⟨?_, h2.1.2 _ (by simp)⟩
  rw [h.1.1]
  have hak : AppLogger.isSensitiveKey "ApiKey" = true := by decide
  have hn : AppLogger.isSensitiveKey "nested" = false := by decide
  have hpw : AppLogger.isSensitiveKey "password" = true := by decide
  simp [AppLogger.sanitize, AppLogger.sanitizeObj, AppLogger.sanitizeArr,
    hak, hn, hpw]

theorem lookupAssoc_eq_none_of_not_mem {κ β : Type} [DecidableEq κ]
    (m : List (κ × β)) (k : κ) (h : k ∉ m.map Prod.fst) : lookupAssoc m k = none := by
  induction m with
  | nil => rfl
  | cons p rest ih =>
    obtain ⟨k', v'⟩ := p
    simp only [List.map_cons, List.mem_cons] at h
    push_neg at h
    have hne : ¬ k' = k := fun hc => h.1 hc.symm
    simp only [lookupAssoc, hne, if_false]
    exact ih h.2

theorem mapHas_eq_false_of_not_mem {κ β : Type} [DecidableEq κ]
    (m : List (κ × β)) (k : κ) (h : k ∉ m.map Prod.fst) : mapHas m k = false := by
  induction m with
  | nil => rfl
  | cons p rest ih =>
    obtain ⟨k', v'⟩ := p
    simp only [List.map_cons, List.mem_cons] at h
    push_neg at h
    have hne : ¬ k' = k := fun hc => h.1 hc.symm
    simp only [mapHas, hne, if_false]
    exact ih h.2

theorem not_mem_of_mapHas_eq_false {κ β : Type} [DecidableEq κ]
    (m : List (κ × β)) (k : κ) (h : mapHas m k = false) : k ∉ m.map Prod.fst := by
  induction m with
  | nil => simp
  | cons p rest ih =>
    obtain ⟨k', v'⟩ := p
    by_cases hk : k' = k
    · simp [mapHas, hk] at h
    · simp only [mapHas, hk, if_false] at h
      simp only [List.map_cons, List.mem_cons]
      push_neg
      exact ⟨fun hc => hk hc.symm, ih h⟩

theorem mapDelete_eq_self_of_not_mem {κ β : Type} [DecidableEq κ]
    (m : List (κ × β)) (k : κ) (h : k ∉ m.map Prod.fst) : mapDelete m k = m := by
  induction m with
  | nil => rfl
  | cons p rest ih =>
    obtain ⟨k', v'⟩ := p
    simp only [List.map_cons, List.mem_cons] at h
    push_neg at h
    have hne : ¬ k' = k := fun hc => h.1 hc.symm
    simp only [mapDelete, hne, if_false]
    rw [ih h.2]

theorem mapHas_append {κ β : Type} [DecidableEq κ]
    (a b : List (κ × β)) (k : κ) :
    mapHas (a ++ b) k = (mapHas a k || mapHas b k) := by
  induction a with
  | nil => simp [mapHas]
  | cons p rest ih =>
    obtain ⟨k', v'⟩ := p
    by_cases hk : k' = k <;> simp [mapHas, hk, ih]

theorem lookupAssoc_append_ne_single {κ β : Type} [DecidableEq κ]
    (a : List (κ × β)) (k j : κ) (v : β) (h : j ≠ k) :
    lookupAssoc (a ++ [(k, v)]) j = lookupAssoc a j := by
  induction a with
  | nil =>
    have hne : ¬ k = j := fun hc => h hc.symm
    simp [lookupAssoc, hne]
  | cons p rest ih =>
    obtain ⟨k', v'⟩ := p
    by_cases hk : k' = j <;> simp [lookupAssoc, hk, ih]

theorem length_mapDelete_add_one {κ β : Type} [DecidableEq κ]
    (m : List (κ × β)) (k : κ) (hhas : mapHas m k = true)
    (hnodup : (m.map Prod.fst).Nodup) :
    (mapDelete m k).length + 1 = m.length := by
  induction m with
  | nil => simp [mapHas] at hhas
  | cons p rest ih =>
    obtain ⟨k', v'⟩ := p
    simp only [List.map_cons, List.nodup_cons] at hnodup
    by_cases hk : k' = k
    · subst hk
      simp only [mapDelete, if_pos rfl]
      rw [mapDelete_eq_self_of_not_mem rest k' hnodup.1]
      simp
    · simp only [mapHas, hk, if_false] at hhas
      simp only [mapDelete, hk, if_false, List.length_cons]
      rw [ih hhas hnodup.2]

theorem LRUCache.set_existing {K V : Type} [DecidableEq K]
    (c : LRUCache K V) (k : K) (v : V) (hhas : mapHas c.map k = true) :
    (c.set k v).map = mapDelete c.map k ++ [(k, v)] := by
  unfold LRUCache.set
  simp [hhas]

theorem LRUCache.set_fresh_not_full {K V : Type} [DecidableEq K]
    (c : LRUCache K V) (k : K) (v : V) (hfresh : mapHas c.map k = false)
    (hroom : ¬ c.maxSize ≤ c.map.length) :
    (c.set k v).map = c.map ++ [(k, v)] := by
  unfold LRUCache.set
  simp [hfresh, hroom]

theorem LRUCache.set_fresh_full {K V : Type} [DecidableEq K]
    (c : LRUCache K V) (k : K) (v : V) (k0 : K) (v0 : V) (rest : List (K × V))
    (hmap : c.map = (k0, v0) :: rest)
    (hfresh : mapHas c.map k = false)
    (hfull : c.maxSize ≤ c.map.length)
    (hnodup : (c.map.map Prod.fst).Nodup) :
    (c.set k v).map = rest ++ [(k, v)] := by
  have hk0 : k0 ∉ rest.map Prod.fst := by
    rw [hmap] at hnodup
    simp only [List.map_cons, List.nodup_cons] at hnodup
    exact hnodup.1
  unfold LRUCache.set
  simp only [hfresh, Bool.false_eq_true, if_false, hfull, if_true]
  rw [hmap]
  simp [mapDelete, mapDelete_eq_self_of_not_mem rest k0 hk0]

theorem LRUCache.get_hit {K V : Type} [DecidableEq K]
    (c : LRUCache K V) (k : K) (v : V) (hlookup : lookupAssoc c.map k = some v) :
    c.get k = (some v, { c with map := mapDelete c.map k ++ [(k, v)] }) := by
  unfold LRUCache.get
  rw [hlookup]

theorem LRUCache.setMany_append {K V : Type} [DecidableEq K]
    (a b : List (K × V)) : ∀ c : LRUCache K V,
    LRUCache.setMany c (a ++ b) = LRUCache.setMany (LRUCache.setMany c a) b := by
  induction a with
  | nil => intro c; rfl
  | cons p rest ih =>
    intro c
    obtain ⟨k, v⟩ := p
    simp only [List.cons_append, LRUCache.setMany]
    exact ih (c.set k v)

theorem LRUCache.setMany_fill {K V : Type} [DecidableEq K] :
    ∀ (l : List (K × V)) (c : LRUCache K V),
      (((c.map ++ l).map Prod.fst).Nodup) →
      c.map.length + l.length ≤ c.maxSize →
      (LRUCache.setMany c l).map = c.map ++ l ∧
      (LRUCache.setMany c l).maxSize = c.maxSize := by
  intro l
  induction l with
  | nil => intro c _ _; simp [LRUCache.setMany]
  | cons p rest ih =>
    intro c hnodup hlen
    obtain ⟨k, v⟩ := p
    have hkfresh : k ∉ c.map.map Prod.fst := by
      have hd := (List.nodup_append.mp (by simpa using hnodup)).2.2
      intro hmem
      exact hd hmem (by simp)
    have hfresh : mapHas c.map k = false := mapHas_eq_false_of_not_mem _ _ hkfresh
    have hroom : ¬ c.maxSize ≤ c.map.length := by
      simp only [List.length_cons] at hlen
      omega
    have hstep : (c.set k v).map = c.map ++ [(k, v)] :=
      LRUCache.set_fresh_not_full c k v hfresh hroom
    have hmax : (c.set k v).maxSize = c.maxSize := by
      unfold LRUCache.set
      rfl
    simp only [LRUCache.setMany]
    have happ : (c.set k v).map ++ rest = c.map ++ ((k, v) :: rest) := by
      rw [hstep]
      simp
    have := ih (c.set k v) (by rw [happ]; exact hnodup)
      (by rw [hstep]; simp only [List.length_append, List.length_singleton]
          simp only [List.length_cons] at hlen
          omega)
    rw [hmax] at this
    rw [this.1, happ]
    exact ⟨rfl, this.2⟩

/-- Claim C10: for the LRU cache with capacity `maxSize ≥ 1`:
(i) inserting `maxSize + 1` distinct keys into an empty cache evicts exactly
the least-recently-used key — the first in iteration order — and no other,
leaving exactly the later `maxSize` entries in order;
(ii) with the cache at capacity and its oldest entry `(k0, v0)`, a fresh
`set` evicts `k0`, but a `get k0` first promotes it to most recently used so
that the same fresh `set` evicts the second-oldest entry instead and `k0`
survives;
(iii) `set` on a present key removes and reinserts it at the
most-recently-used position: the cache does not grow, the key maps to the
new value, and every other entry is untouched. -/
theorem lru_eviction_promotion {K V : Type} [DecidableEq K]
    (maxSize : Nat) (l : List (K × V)) (c : LRUCache K V)
    (k0 k' k : K) (v0 v' v : V) (rest : List (K × V)) :
    ((l.map Prod.fst).Nodup → l.length = maxSize + 1 → 1 ≤ maxSize →
      (LRUCache.setMany { maxSize := maxSize, map := [] } l).map = l.tail) ∧
    ((c.map.map Prod.fst).Nodup → c.map = (k0, v0) :: rest → rest ≠ [] →
      c.map.length = c.maxSize → mapHas c.map k' = false →
      mapHas (c.set k' v').map k0 = false ∧
      mapHas ((c.get k0).2.set k' v').map k0 = true) ∧
    ((c.map.map Prod.fst).Nodup → mapHas c.map k = true →
      (c.set k v).map = mapDelete c.map k ++ [(k, v)] ∧
      (c.set k v).map.length = c.map.length ∧
      lookupAssoc (c.set k v).map k = some v ∧
      (∀ j, j ≠ k → lookupAssoc (c.set k v).map j = lookupAssoc c.map j)) := by
  refine ⟨?_, ?_, ?_⟩
  · intro hnodup hlen hmax
    obtain ⟨init, b, rfl⟩ := (List.eq_nil_or_concat l).resolve_left
      (by intro h
          rw [h, List.length_nil] at hlen
          omega)
    obtain ⟨kl, vl⟩ := b
    rw [List.concat_eq_append] at hnodup hlen ⊢
    have hkeys := List.nodup_append.mp (by simpa using hnodup)
    have hinitlen : init.length = maxSize := by
      simp only [List.length_append, List.length_singleton] at hlen
      omega
    have hfill := LRUCache.setMany_fill init { maxSize := maxSize, map := [] }
      (by simpa using hkeys.1) (by simp [hinitlen])
    obtain ⟨⟨q0, w0⟩, initRest, hinit⟩ : ∃ p q, init = p :: q := by
      cases init with
      | nil => rw [List.length_nil] at hinitlen; omega
      | cons a b => exact ⟨a, b, rfl⟩
    have hklfresh : kl ∉ init.map Prod.fst := by
      intro hmem
      exact hkeys.2.2 hmem (by simp)
    rw [LRUCache.setMany_append]
    simp only [LRUCache.setMany]
    have hevict := LRUCache.set_fresh_full
      (LRUCache.setMany { maxSize := maxSize, map := [] } init)
      kl vl q0 w0 initRest (by rw [hfill.1, hinit]; simp)
      (by rw [hfill.1]; exact mapHas_eq_false_of_not_mem _ _ hklfresh)
      (by rw [hfill.1, hfill.2]; simp [hinitlen])
      (by rw [hfill.1]; simpa using hkeys.1)
    rw [hevict, hinit]
    simp
  · intro hnodup hmap hrest hlen hfresh
    have hk0rest : k0 ∉ rest.map Prod.fst := by
      rw [hmap] at hnodup
      simp only [List.map_cons, List.nodup_cons] at hnodup
      exact hnodup.1
    have hrestnodup : (rest.map Prod.fst).Nodup := by
      rw [hmap] at hnodup
      simp only [List.map_cons, List.nodup_cons] at hnodup
      exact hnodup.2
    have hknotmem : k' ∉ c.map.map Prod.fst := not_mem_of_mapHas_eq_false _ _ hfresh
    have hkk0 : ¬ k' = k0 := by
      intro hc
      apply hknotmem
      rw [hmap, hc]
      simp
    have hkrest : k' ∉ rest.map Prod.fst := by
      intro hmem
      apply hknotmem
      rw [hmap]
      simp [hmem]
    constructor
    · rw [LRUCache.set_fresh_full c k' v' k0 v0 rest hmap hfresh (le_of_eq hlen.symm)
        hnodup]
      rw [mapHas_append]
      rw [mapHas_eq_false_of_not_mem rest k0 hk0rest]
      simp [mapHas, hkk0]
    · have hlookup : lookupAssoc c.map k0 = some v0 := by
        rw [hmap]
        simp [lookupAssoc]
      have hdel : mapDelete c.map k0 = rest := by
        rw [hmap]
        simp [mapDelete, mapDelete_eq_self_of_not_mem rest k0 hk0rest]
      rw [LRUCache.get_hit c k0 v0 hlookup]
      obtain ⟨⟨k1, v1⟩, rest2, hrest2⟩ : ∃ p q, rest = p :: q := by
        cases rest with
        | nil => exact absurd rfl hrest
        | cons a b => exact ⟨a, b, rfl⟩
      have hc1map : ({ c with map := mapDelete c.map k0 ++ [(k0, v0)] } :
          LRUCache K V).map = (k1, v1) :: (rest2 ++ [(k0, v0)]) := by
        simp [hdel, hrest2]
      have hk0k : ¬ k0 = k' := fun hc => hkk0 hc.symm
      have hc1fresh : mapHas (mapDelete c.map k0 ++ [(k0, v0)]) k' = false := by
        rw [hdel, mapHas_append]
        rw [mapHas_eq_false_of_not_mem rest k' hkrest]
        simp [mapHas, hk0k]
      have hc1full : c.maxSize ≤ (mapDelete c.map k0 ++ [(k0, v0)]).length := by
        rw [hdel]
        have : c.map.length = rest.length + 1 := by rw [hmap]; rfl
        simp only [List.length_append, List.length_singleton]
        omega
      have hc1nodup : (((mapDelete c.map k0 ++ [(k0, v0)]) : List (K × V)).map
          Prod.fst).Nodup := by
        rw [hdel]
        rw [List.map_append]
        apply List.nodup_append.mpr
        refine ⟨hrestnodup, by simp, ?_⟩
        intro a ha hb
        simp only [List.map_cons, List.map_nil, List.mem_singleton] at hb
        rw [hb] at ha
        exact hk0rest ha
      have hev := LRUCache.set_fresh_full
        ({ c with map := mapDelete c.map k0 ++ [(k0, v0)] } : LRUCache K V)
        k' v' k1 v1 (rest2 ++ [(k0, v0)]) hc1map hc1fresh hc1full hc1nodup
      rw [hev, mapHas_append, mapHas_append]
      simp [mapHas]
  · intro hnodup hhas
    have hset := LRUCache.set_existing c k v hhas
    refine ⟨hset, ?_, ?_, ?_⟩
    · rw [hset]
      simp only [List.length_append, List.length_singleton]
      have := length_mapDelete_add_one c.map k hhas hnodup
      omega
    · rw [hset]
      exact lookupAssoc_append_of_none _ _ _ (lookupAssoc_mapDelete_self _ _)
    · intro j hj
      rw [hset, lookupAssoc_append_ne_single _ _ _ _ hj]
      exact lookupAssoc_mapDelete_ne _ _ _ hj

theorem lru_eviction_promotion_witness :
    (LRUCache.setMany { maxSize := 2, map := [] } [(1, 10), (2, 20), (3, 30)]).map =
      [(2, 20), (3, 30)] ∧
    mapHas ((({ maxSize := 2, map := [(1, 10), (2, 20)] } : LRUCache Nat Nat).set
      3 30).map) 1 = false ∧
    mapHas (((({ maxSize := 2, map := [(1, 10), (2, 20)] } :
      LRUCache Nat Nat).get 1).2.set 3 30).map) 1 = true ∧
    (({ maxSize := 2, map := [(1, 10), (2, 20)] } : LRUCache Nat Nat).set
      1 99).map.length = 2 := by
  have h := lru_eviction_promotion 2 [(1, 10), (2, 20), (3, 30)]
    ({ maxSize := 2, map := [(1, 10), (2, 20)] } : LRUCache Nat Nat)
    1 3 1 10 30 99 [(2, 20)]
  have hpair := h.2.1 (by decide) rfl (by decide) rfl (by decide)
  have hgrow := h.2.2 (by decide) (by decide)
  refine ⟨by simpa using h.1 (by decide) (by decide) (by decide), hpair.1, hpair.2, ?_⟩
  simpa using hgrow.2.1
